import Mathlib

/-!
Verification of the sentimeter analysis pipeline.

Shallow embedding of the step cache (`src/lib/step-cache.ts`), the
prediction updater (`src/lib/prediction-tracker/updater.ts`), the ticker
ranking of step 3, and the daily-analysis orchestration
(`src/jobs/daily-analysis.ts`).  TypeScript strings are modelled as lists
of characters, JavaScript numbers used for prices and scores as rationals,
and timestamps (milliseconds) as integers.  External collaborators
(crawler, LLM, Yahoo Finance, SQLite queries) are inputs of the embedded
functions: a collaborator call either returns a value or throws, modelled
with `Except`.
-/

namespace Sentimeter

/-- Characters of a TypeScript string. -/
abbrev Str : Type := List Char

/-- The `JobSchedule` values: the two daily run slots. -/
inductive Schedule : Type
  | morning
  | evening
deriving DecidableEq, Repr

/-- The characters of a schedule name, as interpolated into cache file names. -/
def scheduleChars : Schedule → Str
  | .morning => ['m', 'o', 'r', 'n', 'i', 'n', 'g']
  | .evening => ['e', 'v', 'e', 'n', 'i', 'n', 'g']

/-- The cache TTL from `step-cache.ts`: `60 * 60 * 1000` ms (one hour). -/
def CACHE_TTL_MS : Int := 60 * 60 * 1000

/-- Content of one cache file: either text that fails to parse as a
`CacheEntry` (the `catch` branch of `getStepCache`), or a parsed entry
`{cachedAt, data}` with `cachedAt` in milliseconds. -/
inductive FileContent (V : Type) : Type
  | malformed
  | entry (cachedAt : Int) (data : V)
deriving DecidableEq, Repr

/-- The cache directory: an association list from file name to file content. -/
abbrev FS (V : Type) : Type := List (Str × FileContent V)

variable {V : Type}

/-- Reading the file stored under a name (`Bun.file(...)`): `none` when no
file with this name exists. -/
def lookupFile : FS V → Str → Option (FileContent V)
  | [], _ => none
  | (p, c) :: rest, q => if p = q then some c else lookupFile rest q

/-- Removing the file stored under a name. -/
def removeFile : FS V → Str → FS V
  | [], _ => []
  | (p, c) :: rest, q => if p = q then removeFile rest q else (p, c) :: removeFile rest q

/-- Writing a file (`Bun.write`) overwrites any file with the same name. -/
def writeFile (fs : FS V) (p : Str) (c : FileContent V) : FS V :=
  (p, c) :: removeFile fs p

/-- Decimal digits of a step number, the `${step}` interpolation. -/
def stepDigits (step : Nat) : Str := Nat.toDigits 10 step

/-- The file name of `getCachePath`:
`${date}_${schedule}_step${step}.json` (the directory part is constant and
omitted). -/
def getCachePath (date : Str) (s : Schedule) (step : Nat) : Str :=
  date ++ '_' :: (scheduleChars s ++ '_' ::
    ('s' :: 't' :: 'e' :: 'p' :: (stepDigits step ++ ['.', 'j', 's', 'o', 'n'])))

/-- The file-name pattern `${date}_${schedule}_step` that `clearStepCache`
matches file names against. -/
def clearPattern (date : Str) (s : Schedule) : Str :=
  date ++ '_' :: (scheduleChars s ++ '_' :: ['s', 't', 'e', 'p'])

/-- Embedding of `getStepCache`: `null` when the file is missing, its
contents fail to deserialize, or the entry is older than the one-hour TTL.
All failure cases return `none`; the function is total and never raises. -/
def getStepCache (fs : FS V) (now : Int) (date : Str) (s : Schedule) (step : Nat) : Option V :=
  match lookupFile fs (getCachePath date s step) with
  | none => none
  | some .malformed => none
  | some (.entry cachedAt data) =>
      if now - cachedAt > CACHE_TTL_MS then none else some data

/-- Embedding of `setStepCache`: writes `{cachedAt: now, data}` at the
step's cache path. -/
def setStepCache (fs : FS V) (now : Int) (date : Str) (s : Schedule) (step : Nat) (data : V) : FS V :=
  writeFile fs (getCachePath date s step) (.entry now data)

/-- The loop of `getResumeStep`: starting at `step` with `remaining` loop
iterations left, return the first step whose lookup yields `null`, or the
step counter after the loop. -/
def resumeScan (f : Nat → Option V) : Nat → Nat → Nat
  | step, 0 => step
  | step, remaining + 1 =>
    match f step with
    | none => step
    | some _ => resumeScan f (step + 1) remaining

/-- Embedding of `getResumeStep`: scan steps `1..totalSteps`, return the
first uncached one, or `totalSteps + 1` when all are cached. -/
def getResumeStep (fs : FS V) (now : Int) (date : Str) (s : Schedule) (totalSteps : Nat) : Nat :=
  resumeScan (fun step => getStepCache fs now date s step) 1 totalSteps

/-- JavaScript `pattern.startsWith` on character lists (first argument is
the pattern). -/
def startsWithChars : Str → Str → Bool
  | [], _ => true
  | _ :: _, [] => false
  | a :: as, b :: bs => a == b && startsWithChars as bs

/-- The loop of `clearStepCache`: unlink every file whose name starts with
the pattern. -/
def clearFiles (pat : Str) : FS V → FS V
  | [] => []
  | (p, c) :: rest =>
    if startsWithChars pat p then clearFiles pat rest else (p, c) :: clearFiles pat rest

/-- Embedding of `clearStepCache`: remove all cached step files whose name
starts with `${date}_${schedule}_step`. -/
def clearStepCache (date : Str) (s : Schedule) (fs : FS V) : FS V :=
  clearFiles (clearPattern date s) fs

section CacheLemmas

theorem getStepCache_of_lookup_none {fs : FS V} {now : Int} {date : Str}
    {s : Schedule} {step : Nat}
    (h : lookupFile fs (getCachePath date s step) = none) :
    getStepCache fs now date s step = none := by
  rw [getStepCache, h]

theorem getStepCache_of_lookup_malformed {fs : FS V} {now : Int} {date : Str}
    {s : Schedule} {step : Nat}
    (h : lookupFile fs (getCachePath date s step) = some .malformed) :
    getStepCache fs now date s step = none := by
  rw [getStepCache, h]

theorem getStepCache_of_lookup_entry {fs : FS V} {now : Int} {date : Str}
    {s : Schedule} {step : Nat} {t : Int} {d : V}
    (h : lookupFile fs (getCachePath date s step) = some (.entry t d)) :
    getStepCache fs now date s step =
      if now - t > CACHE_TTL_MS then none else some d := by
  rw [getStepCache, h]

theorem lookupFile_writeFile_self (fs : FS V) (p : Str) (c : FileContent V) :
    lookupFile (writeFile fs p c) p = some c := by
  simp [writeFile, lookupFile]

theorem lookupFile_removeFile (fs : FS V) (p q : Str) :
    lookupFile (removeFile fs p) q = if p = q then none else lookupFile fs q := by
  induction fs with
  | nil => simp [removeFile, lookupFile]
  | cons hd tl ih =>
    obtain ⟨p', c'⟩ := hd
    by_cases hp : p' = p
    · subst hp
      by_cases hq : p' = q
      · subst hq
        simp [removeFile, lookupFile, ih]
      · simp [removeFile, lookupFile, hq, ih]
    · by_cases hq : p' = q
      · subst hq
        simp [removeFile, lookupFile, hp, ih]
        intro h
        exact absurd h.symm hp
      · simp [removeFile, lookupFile, hp, hq, ih]

theorem lookupFile_writeFile_other (fs : FS V) (p q : Str) (c : FileContent V)
    (h : p ≠ q) :
    lookupFile (writeFile fs p c) q = lookupFile fs q := by
  simp [writeFile, lookupFile, h, lookupFile_removeFile]

/-- The generic specification of the resume loop: either every scanned
step is cached and the result is the counter past the loop, or the result
is the first scanned step lacking a cache entry. -/
theorem resumeScan_spec (f : Nat → Option V) (start n : Nat) :
    (resumeScan f start n = start + n ∧
      ∀ k, start ≤ k → k < start + n → (f k).isSome = true) ∨
    (start ≤ resumeScan f start n ∧ resumeScan f start n < start + n ∧
      f (resumeScan f start n) = none ∧
      ∀ k, start ≤ k → k < resumeScan f start n → (f k).isSome = true) := by
  induction n generalizing start with
  | zero =>
    left
    refine ⟨by simp [resumeScan], ?_⟩
    intro k hk hk'
    omega
  | succ m ih =>
    cases hf : f start with
    | none =>
      right
      have hr : resumeScan f start (m + 1) = start := by simp [resumeScan, hf]
      rw [hr]
      exact ⟨Nat.le_refl _, by omega, hf, fun k hk hk' => by omega⟩
    | some v =>
      have hstep : resumeScan f start (m + 1) = resumeScan f (start + 1) m := by
        simp [resumeScan, hf]
      rcases ih (start + 1) with ⟨h1, h2⟩ | ⟨h1, h2, h3, h4⟩
      · left
        constructor
        · rw [hstep, h1]; omega
        · intro k hk hk'
          rcases Nat.eq_or_lt_of_le hk with rfl | hlt
          · simp [hf]
          · exact h2 k hlt (by omega)
      · right
        rw [hstep]
        refine ⟨by omega, by omega, h3, ?_⟩
        intro k hk hk'
        rcases Nat.eq_or_lt_of_le hk with rfl | hlt
        · simp [hf]
        · exact h4 k hlt hk'

end CacheLemmas

/-- C1: `getResumeStep(date, schedule, C)` scans steps `1..C` in order and
returns the number of the first step whose cache entry is absent (missing,
malformed, or older than the TTL, all of which `getStepCache` reports as
`none`); if every step `1..C` has a present and valid entry it returns
`C + 1`. -/
theorem getResumeStep_first_absent (fs : FS V) (now : Int) (date : Str)
    (s : Schedule) (C : Nat) :
    (getResumeStep fs now date s C = C + 1 ∧
      ∀ k, 1 ≤ k → k ≤ C → (getStepCache fs now date s k).isSome = true) ∨
    (1 ≤ getResumeStep fs now date s C ∧ getResumeStep fs now date s C ≤ C ∧
      getStepCache fs now date s (getResumeStep fs now date s C) = none ∧
      ∀ k, 1 ≤ k → k < getResumeStep fs now date s C →
        (getStepCache fs now date s k).isSome = true) := by
  have hdef : getResumeStep fs now date s C =
      resumeScan (fun step => getStepCache fs now date s step) 1 C := rfl
  rw [hdef]
  rcases resumeScan_spec (fun step => getStepCache fs now date s step) 1 C with
    ⟨h1, h2⟩ | ⟨h1, h2, h3, h4⟩
  · left
    exact ⟨by omega, fun k hk hk' => h2 k hk (by omega)⟩
  · right
    exact ⟨h1, by omega, h3, h4⟩

/-- C4: `getStepCache` returns the cached payload if and only if a cache
file exists, its contents deserialize, and `now - cachedAt` is at most the
one-hour TTL; a missing file, a malformed payload, and an entry older than
the TTL all yield `none`.  The embedded function is total (it returns
`Option` rather than raising). -/
theorem getStepCache_valid_iff (fs : FS V) (now : Int) (date : Str)
    (s : Schedule) (step : Nat) :
    (∀ v, getStepCache fs now date s step = some v ↔
      ∃ t, lookupFile fs (getCachePath date s step) = some (.entry t v) ∧
        now - t ≤ CACHE_TTL_MS) ∧
    (getStepCache fs now date s step = none ↔
      (lookupFile fs (getCachePath date s step) = none ∨
       lookupFile fs (getCachePath date s step) = some .malformed ∨
       ∃ t v, lookupFile fs (getCachePath date s step) = some (.entry t v) ∧
         now - t > CACHE_TTL_MS)) := by
  cases h : lookupFile fs (getCachePath date s step) with
  | none =>
    constructor
    · intro v
      simp [getStepCache, h]
    · simp [getStepCache, h]
  | some c =>
    cases c with
    | malformed =>
      constructor
      · intro v
        simp [getStepCache, h]
      · simp [getStepCache, h]
    | entry t d =>
      by_cases ht : now - t > CACHE_TTL_MS
      · constructor
        · intro v
          rw [getStepCache_of_lookup_entry h, if_pos ht]
          constructor
          · intro hv
            cases hv
          · rintro ⟨t', ht', hle⟩
            simp only [Option.some.injEq, FileContent.entry.injEq] at ht'
            obtain ⟨rfl, rfl⟩ := ht'
            omega
        · rw [getStepCache_of_lookup_entry h, if_pos ht]
          exact iff_of_true rfl (Or.inr (Or.inr ⟨t, d, rfl, ht⟩))
      · constructor
        · intro v
          rw [getStepCache_of_lookup_entry h, if_neg ht]
          constructor
          · intro hv
            simp only [Option.some.injEq] at hv
            subst hv
            exact ⟨t, rfl, by omega⟩
          · rintro ⟨t', ht', hle⟩
            simp only [Option.some.injEq, FileContent.entry.injEq] at ht'
            obtain ⟨rfl, rfl⟩ := ht'
            rfl
        · rw [getStepCache_of_lookup_entry h, if_neg ht]
          constructor
          · intro hv
            cases hv
          · rintro (hc | hc | ⟨t', v', ht', hgt⟩)
            · cases hc
            · cases hc
            · simp only [Option.some.injEq, FileContent.entry.injEq] at ht'
              obtain ⟨rfl, rfl⟩ := ht'
              omega

/-- C10: writing a step payload and reading it back within the TTL returns
the stored payload, and a second write for the same key overwrites the
first, so the read returns the most recently written payload. -/
theorem setStepCache_roundtrip (fs : FS V) (now0 now now' : Int) (date : Str)
    (s : Schedule) (step : Nat) (v0 v : V)
    (h : now' - now ≤ CACHE_TTL_MS) :
    getStepCache (setStepCache fs now date s step v) now' date s step = some v ∧
    getStepCache (setStepCache (setStepCache fs now0 date s step v0) now date s step v)
        now' date s step = some v := by
  constructor
  · rw [setStepCache,
      getStepCache_of_lookup_entry (lookupFile_writeFile_self fs (getCachePath date s step) _),
      if_neg (by omega)]
  · rw [setStepCache, setStepCache,
      getStepCache_of_lookup_entry
        (lookupFile_writeFile_self _ (getCachePath date s step) _),
      if_neg (by omega)]

/-- Closed instance of the round-trip property at a concrete store and
concrete times half an hour apart. -/
theorem setStepCache_roundtrip_witness :
    getStepCache (setStepCache ([] : FS Nat) 1000 ['d'] Schedule.morning 1 7)
        1801000 ['d'] Schedule.morning 1 = some 7 ∧
    getStepCache (setStepCache (setStepCache ([] : FS Nat) 0 ['d'] Schedule.morning 1 3)
        1000 ['d'] Schedule.morning 1 7) 1801000 ['d'] Schedule.morning 1 = some 7 :=
  setStepCache_roundtrip [] 0 1000 1801000 ['d'] Schedule.morning 1 3 7 (by decide)

section ClearFrame

theorem startsWithChars_iff (pat l : Str) :
    startsWithChars pat l = true ↔ pat <+: l := by
  induction pat generalizing l with
  | nil => simp [startsWithChars]
  | cons a as ih =>
    cases l with
    | nil => simp [startsWithChars]
    | cons b bs => simp [startsWithChars, List.cons_prefix_cons, ih]

theorem lookupFile_clearFiles (pat : Str) (fs : FS V) (q : Str) :
    lookupFile (clearFiles pat fs) q =
      if startsWithChars pat q = true then none else lookupFile fs q := by
  induction fs with
  | nil =>
    simp only [clearFiles, lookupFile]
    split <;> rfl
  | cons hd tl ih =>
    obtain ⟨p, c⟩ := hd
    by_cases hp : startsWithChars pat p = true
    · rw [clearFiles, if_pos hp, ih]
      by_cases hpq : p = q
      · subst hpq
        rw [if_pos hp, if_pos hp]
      · by_cases hq : startsWithChars pat q = true
        · rw [if_pos hq, if_pos hq]
        · rw [if_neg hq, if_neg hq, lookupFile, if_neg hpq]
    · rw [clearFiles, if_neg hp, lookupFile]
      by_cases hpq : p = q
      · subst hpq
        rw [if_pos rfl, if_neg hp, lookupFile, if_pos rfl]
      · rw [if_neg hpq, ih, lookupFile, if_neg hpq]

/-- Splitting concatenations at the first underscore: when neither left
part contains an underscore, equal concatenations have equal parts. -/
theorem underscore_split : ∀ {a b u v : Str}, '_' ∉ a → '_' ∉ b →
    a ++ '_' :: u = b ++ '_' :: v → a = b ∧ u = v := by
  intro a
  induction a with
  | nil =>
    intro b u v _ hb h
    cases b with
    | nil =>
      simp only [List.nil_append, List.cons.injEq] at h
      exact ⟨rfl, h.2⟩
    | cons c bs =>
      simp only [List.nil_append, List.cons_append, List.cons.injEq] at h
      exact absurd (h.1 ▸ List.mem_cons_self c bs) hb
  | cons c as ih =>
    intro b u v ha hb h
    cases b with
    | nil =>
      simp only [List.cons_append, List.nil_append, List.cons.injEq] at h
      exact absurd (h.1.symm ▸ List.mem_cons_self c as) ha
    | cons c' bs =>
      simp only [List.cons_append, List.cons.injEq] at h
      have ha' : '_' ∉ as := fun hm => ha (List.mem_cons_of_mem c hm)
      have hb' : '_' ∉ bs := fun hm => hb (List.mem_cons_of_mem c' hm)
      obtain ⟨heq, hu⟩ := ih ha' hb' h.2
      exact ⟨by rw [h.1, heq], hu⟩

theorem noUnderscore_scheduleChars (s : Schedule) : '_' ∉ scheduleChars s := by
  cases s <;> decide

theorem scheduleChars_injective {s s' : Schedule}
    (h : scheduleChars s = scheduleChars s') : s = s' := by
  cases s <;> cases s' <;> revert h <;> decide

/-- Every cache file of a run key matches that run key's clear pattern. -/
theorem clearPattern_startsWith_own (date : Str) (s : Schedule) (n : Nat) :
    startsWithChars (clearPattern date s) (getCachePath date s n) = true := by
  rw [startsWithChars_iff]
  refine ⟨stepDigits n ++ ['.', 'j', 's', 'o', 'n'], ?_⟩
  simp [clearPattern, getCachePath, List.append_assoc]

/-- A cache file of a different run key (underscore-free dates, as the
calendar-day dates of the job are) never matches the clear pattern. -/
theorem clearPattern_startsWith_iff (date date' : Str) (s s' : Schedule) (n : Nat)
    (hd : '_' ∉ date) (hd' : '_' ∉ date') :
    startsWithChars (clearPattern date s) (getCachePath date' s' n) = true ↔
      (date = date' ∧ s = s') := by
  constructor
  · intro h
    rw [startsWithChars_iff] at h
    obtain ⟨t, heq⟩ := h
    rw [clearPattern, getCachePath] at heq
    rw [List.append_assoc, List.cons_append] at heq
    obtain ⟨hdate, h2⟩ := underscore_split hd hd' heq
    rw [List.append_assoc, List.cons_append] at h2
    obtain ⟨hsched, -⟩ :=
      underscore_split (noUnderscore_scheduleChars s) (noUnderscore_scheduleChars s') h2
    exact ⟨hdate, scheduleChars_injective hsched⟩
  · rintro ⟨rfl, rfl⟩
    exact clearPattern_startsWith_own date s n

end ClearFrame

/-- C7: for distinct run keys (dates are calendar days, hence free of
underscores), `clearStepCache(date, schedule)` deletes every cached step
entry of that run key and leaves every entry of any other run key
unchanged. -/
theorem clearStepCache_frame (fs : FS V) (date date' : Str) (s s' : Schedule)
    (n n' : Nat) (hd : '_' ∉ date) (hd' : '_' ∉ date')
    (hne : ¬(date = date' ∧ s = s')) :
    lookupFile (clearStepCache date s fs) (getCachePath date s n) = none ∧
    lookupFile (clearStepCache date s fs) (getCachePath date' s' n') =
      lookupFile fs (getCachePath date' s' n') := by
  constructor
  · rw [clearStepCache, lookupFile_clearFiles,
      if_pos (clearPattern_startsWith_own date s n)]
  · rw [clearStepCache, lookupFile_clearFiles, if_neg]
    rw [clearPattern_startsWith_iff date date' s s' n' hd hd']
    exact hne

/-- Closed instance of the frame property: clearing the morning cache of
2024-01-15 deletes its step file and leaves the step file of 2024-01-16
untouched. -/
theorem clearStepCache_frame_witness :
    lookupFile
        (clearStepCache (String.toList "2024-01-15") Schedule.morning
          ([(getCachePath (String.toList "2024-01-15") Schedule.morning 1,
              FileContent.entry 0 (5 : Nat)),
            (getCachePath (String.toList "2024-01-16") Schedule.morning 1,
              FileContent.entry 0 (7 : Nat))]))
        (getCachePath (String.toList "2024-01-15") Schedule.morning 1) = none ∧
    lookupFile
        (clearStepCache (String.toList "2024-01-15") Schedule.morning
          ([(getCachePath (String.toList "2024-01-15") Schedule.morning 1,
              FileContent.entry 0 (5 : Nat)),
            (getCachePath (String.toList "2024-01-16") Schedule.morning 1,
              FileContent.entry 0 (7 : Nat))]))
        (getCachePath (String.toList "2024-01-16") Schedule.morning 1) =
      lookupFile
        ([(getCachePath (String.toList "2024-01-15") Schedule.morning 1,
            FileContent.entry 0 (5 : Nat)),
          (getCachePath (String.toList "2024-01-16") Schedule.morning 1,
            FileContent.entry 0 (7 : Nat))])
        (getCachePath (String.toList "2024-01-16") Schedule.morning 1) :=
  clearStepCache_frame _ (String.toList "2024-01-15") (String.toList "2024-01-16")
    Schedule.morning Schedule.morning 1 1 (by decide) (by decide) (by decide)


section Tracker

/-- Recommendation status values (`pending`, `entry_hit`, `target_hit`,
`sl_hit`, `expired`). -/
inductive Status : Type
  | pending
  | entry_hit
  | target_hit
  | sl_hit
  | expired
deriving DecidableEq, Repr

/-- The terminal-status test of `updateAllPredictions`:
`newStatus === "target_hit" || newStatus === "sl_hit" || newStatus === "expired"`. -/
def isTerminalStatus (st : Status) : Bool :=
  st == Status.target_hit || st == Status.sl_hit || st == Status.expired

/-- The fields of a stored recommendation used by the updater. -/
structure Recommendation where
  id : Nat
  ticker : Str
  recommendationDate : Int
  entryPrice : Rat
  stopLoss : Rat
  targetPrice : Rat
  maxHoldDays : Int
  status : Status
deriving DecidableEq, Repr

/-- The `{ticker, previousStatus, newStatus}` record returned by
`checkStatusChange` and logged by the updater. -/
structure StatusUpdate where
  ticker : Str
  previousStatus : Status
  newStatus : Status
deriving DecidableEq, Repr

/-- Modelled from the spec: `calculatePnlPct` lives in
`src/lib/prediction-tracker/status-checker.ts`, which is absent from the
source snapshot; spec section 4.2 defines
`pnlPct = (currentPrice - entryPrice) / entryPrice * 100`. -/
def calculatePnlPct (entryPrice currentPrice : Rat) : Rat :=
  (currentPrice - entryPrice) / entryPrice * 100

/-- Modelled from the spec: `calculateDaysActive` lives in
`src/lib/prediction-tracker/status-checker.ts`, which is absent from the
source snapshot; spec section 4.2 defines
`daysActive = (today - recommendationDate)` in days. -/
def calculateDaysActive (recommendationDate today : Int) : Int :=
  today - recommendationDate

/-- Modelled from the spec: `checkStatusChange` lives in
`src/lib/prediction-tracker/status-checker.ts`, which is absent from the
source snapshot.  Spec section 4.2 gives the transition table
(`pending -> entry_hit` on `currentPrice <= entryPrice`,
`pending -> expired` on `daysActive > maxHoldDays`,
`entry_hit -> target_hit` on `currentPrice >= targetPrice`,
`entry_hit -> sl_hit` on `currentPrice <= stopLoss`,
`entry_hit -> expired` on `daysActive > maxHoldDays`) with terminal states
absorbing, and documents the priority target before stop before expiry. -/
def checkStatusChange (rec : Recommendation) (currentPrice : Rat)
    (daysActive : Int) : Option StatusUpdate :=
  match rec.status with
  | .pending =>
    if currentPrice ≤ rec.entryPrice then
      some ⟨rec.ticker, .pending, .entry_hit⟩
    else if daysActive > rec.maxHoldDays then
      some ⟨rec.ticker, .pending, .expired⟩
    else
      none
  | .entry_hit =>
    if currentPrice ≥ rec.targetPrice then
      some ⟨rec.ticker, .entry_hit, .target_hit⟩
    else if currentPrice ≤ rec.stopLoss then
      some ⟨rec.ticker, .entry_hit, .sl_hit⟩
    else if daysActive > rec.maxHoldDays then
      some ⟨rec.ticker, .entry_hit, .expired⟩
    else
      none
  | _ => none

/-- Arguments of the `updateRecommendationStatus` persistence call issued
by `updateAllPredictions`. -/
structure PersistCall where
  id : Nat
  newStatus : Status
  exitPrice : Rat
  pnl : Option Rat
deriving DecidableEq, Repr

/-- The per-recommendation body of the `updateAllPredictions` loop: look
the ticker's price up (JavaScript `!currentPrice` also skips a price of
zero), run `checkStatusChange`, and on a status change compute the P&L
only for entered positions reaching a terminal status. -/
def processRec (prices : Str → Option Rat) (today : Int)
    (rec : Recommendation) : Option (PersistCall × StatusUpdate) :=
  match prices rec.ticker with
  | none => none
  | some currentPrice =>
    if currentPrice = 0 then none
    else
      match checkStatusChange rec currentPrice
          (calculateDaysActive rec.recommendationDate today) with
      | none => none
      | some statusUpdate =>
        let wasEntered := statusUpdate.previousStatus == Status.entry_hit
        let pnl :=
          if wasEntered && isTerminalStatus statusUpdate.newStatus then
            some (calculatePnlPct rec.entryPrice currentPrice)
          else
            none
        some (⟨rec.id, statusUpdate.newStatus, currentPrice, pnl⟩, statusUpdate)

/-- Embedding of `updateAllPredictions`: the list of persistence calls and
logged status updates produced over the active recommendations (the fetched
price map is an input). -/
def updateAllPredictions (recs : List Recommendation)
    (prices : Str → Option Rat) (today : Int) :
    List (PersistCall × StatusUpdate) :=
  recs.filterMap (processRec prices today)

/-- Progress measure of the status state machine:
`pending < entry_hit < terminal`. -/
def statusRank : Status → Nat
  | .pending => 0
  | .entry_hit => 1
  | _ => 2

theorem processRec_of_price_none {prices : Str → Option Rat} {today : Int}
    {rec : Recommendation} (h : prices rec.ticker = none) :
    processRec prices today rec = none := by
  rw [processRec, h]

theorem processRec_of_price_some {prices : Str → Option Rat} {today : Int}
    {rec : Recommendation} {price : Rat} (h : prices rec.ticker = some price) :
    processRec prices today rec =
      if price = 0 then none
      else
        match checkStatusChange rec price
            (calculateDaysActive rec.recommendationDate today) with
        | none => none
        | some su =>
          some (⟨rec.id, su.newStatus, price,
            if (su.previousStatus == Status.entry_hit &&
                isTerminalStatus su.newStatus) = true then
              some (calculatePnlPct rec.entryPrice price)
            else none⟩, su) := by
  rw [processRec, h]

end Tracker

/-- C2: in `updateAllPredictions`, a P&L percentage is passed to the
persistence call if and only if the transition's previous status was
`entry_hit` and the new status is terminal; a pending-to-expired
transition carries no P&L. -/
theorem updateAllPredictions_pnl_iff (recs : List Recommendation)
    (prices : Str → Option Rat) (today : Int)
    (call : PersistCall) (upd : StatusUpdate)
    (h : (call, upd) ∈ updateAllPredictions recs prices today) :
    (call.pnl.isSome = true ↔
      (upd.previousStatus = Status.entry_hit ∧
        isTerminalStatus upd.newStatus = true)) ∧
    (upd.previousStatus = Status.pending → upd.newStatus = Status.expired →
      call.pnl = none) := by
  rw [updateAllPredictions, List.mem_filterMap] at h
  obtain ⟨rec, -, hrec⟩ := h
  rw [processRec] at hrec
  cases hp : prices rec.ticker with
  | none =>
    simp only [hp] at hrec
    exact Option.noConfusion hrec
  | some price =>
    simp only [hp] at hrec
    by_cases hz : price = 0
    · rw [if_pos hz] at hrec
      exact Option.noConfusion hrec
    · rw [if_neg hz] at hrec
      cases hc : checkStatusChange rec price
          (calculateDaysActive rec.recommendationDate today) with
      | none =>
        simp only [hc] at hrec
        exact Option.noConfusion hrec
      | some su =>
        simp only [hc, Option.some.injEq, Prod.mk.injEq] at hrec
        obtain ⟨hcall, hupd⟩ := hrec
        have hpnl : call.pnl =
            if (su.previousStatus == Status.entry_hit &&
                isTerminalStatus su.newStatus) = true then
              some (calculatePnlPct rec.entryPrice price)
            else none := by
          rw [← hcall]
        subst hupd
        cases hb : su.previousStatus == Status.entry_hit &&
            isTerminalStatus su.newStatus with
        | true =>
          rw [hb, if_pos rfl] at hpnl
          simp only [Bool.and_eq_true, beq_iff_eq] at hb
          constructor
          · rw [hpnl]
            exact iff_of_true rfl ⟨hb.1, hb.2⟩
          · intro hpend _
            rw [hpend] at hb
            cases hb.1
        | false =>
          rw [hb, if_neg Bool.false_ne_true] at hpnl
          constructor
          · rw [hpnl]
            simp only [Option.isSome_none, Bool.false_eq_true, false_iff]
            rintro ⟨h1, h2⟩
            have htrue : (su.previousStatus == Status.entry_hit &&
                isTerminalStatus su.newStatus) = true := by
              simp [h1, h2]
            rw [hb] at htrue
            cases htrue
          · intro _ _
            exact hpnl

/-- Closed instance of the P&L rule: an `entry_hit` recommendation whose
price reaches the target produces a persistence call with a P&L. -/
theorem updateAllPredictions_pnl_iff_witness :
    ((some (calculatePnlPct 9500 10250) : Option Rat).isSome = true ↔
      ((Status.entry_hit : Status) = Status.entry_hit ∧
        isTerminalStatus Status.target_hit = true)) ∧
    ((Status.entry_hit : Status) = Status.pending →
      (Status.target_hit : Status) = Status.expired →
      (some (calculatePnlPct 9500 10250) : Option Rat) = none) :=
  updateAllPredictions_pnl_iff
    [⟨1, ['B'], 0, 9500, 9200, 10200, 14, Status.entry_hit⟩]
    (fun _ => some 10250) 5
    ⟨1, Status.target_hit, 10250, some (calculatePnlPct 9500 10250)⟩
    ⟨['B'], Status.entry_hit, Status.target_hit⟩
    (by
      rw [updateAllPredictions, List.mem_filterMap]
      refine ⟨_, List.mem_singleton_self _, ?_⟩
      rw [processRec_of_price_some rfl]
      norm_num [checkStatusChange, calculateDaysActive, isTerminalStatus])

/-- C6: the status state machine only advances forward
(`pending < entry_hit < terminal`): a terminal recommendation is never
touched again by the update pass (no status change, no persistence call,
and a pass over it produces no update at all, so its status, exit fields
and P&L stay as they are), and every transition strictly increases
progress. -/
theorem terminal_status_immutable (rec : Recommendation)
    (prices : Str → Option Rat) (today : Int) (p : Rat) (da : Int) :
    (isTerminalStatus rec.status = true →
      processRec prices today rec = none ∧ checkStatusChange rec p da = none ∧
      updateAllPredictions [rec] prices today = []) ∧
    (∀ u, checkStatusChange rec p da = some u →
      u.previousStatus = rec.status ∧ statusRank rec.status < statusRank u.newStatus) := by
  constructor
  · intro hterm
    have hnone : ∀ (q : Rat) (d : Int), checkStatusChange rec q d = none := by
      intro q d
      cases hst : rec.status with
      | pending => rw [hst] at hterm; cases hterm
      | entry_hit => rw [hst] at hterm; cases hterm
      | target_hit => rw [checkStatusChange, hst]
      | sl_hit => rw [checkStatusChange, hst]
      | expired => rw [checkStatusChange, hst]
    have hproc : processRec prices today rec = none := by
      cases hp : prices rec.ticker with
      | none => exact processRec_of_price_none hp
      | some price =>
        rw [processRec_of_price_some hp]
        by_cases hz : price = 0
        · rw [if_pos hz]
        · rw [if_neg hz, hnone price (calculateDaysActive rec.recommendationDate today)]
    refine ⟨hproc, hnone p da, ?_⟩
    simp [updateAllPredictions, List.filterMap_cons, hproc]
  · intro u hu
    obtain ⟨rid, tk, rdate, ep, sl, tp, mhd, st⟩ := rec
    cases st with
    | pending =>
      simp only [checkStatusChange] at hu
      split at hu
      · cases hu
        exact ⟨rfl, by simp [statusRank]⟩
      · split at hu
        · cases hu
          exact ⟨rfl, by simp [statusRank]⟩
        · exact Option.noConfusion hu
    | entry_hit =>
      simp only [checkStatusChange] at hu
      split at hu
      · cases hu
        exact ⟨rfl, by simp [statusRank]⟩
      · split at hu
        · cases hu
          exact ⟨rfl, by simp [statusRank]⟩
        · split at hu
          · cases hu
            exact ⟨rfl, by simp [statusRank]⟩
          · exact Option.noConfusion hu
    | target_hit =>
      simp only [checkStatusChange] at hu
      exact Option.noConfusion hu
    | sl_hit =>
      simp only [checkStatusChange] at hu
      exact Option.noConfusion hu
    | expired =>
      simp only [checkStatusChange] at hu
      exact Option.noConfusion hu

/-- Closed instance of terminal immutability: a `target_hit`
recommendation yields no status change and no persistence call at any
price, and a fresh `pending` one advances forward to `entry_hit`. -/
theorem terminal_status_immutable_witness :
    (processRec (fun _ => some 100)  7
        ⟨2, ['T'], 0, 9500, 9200, 10200, 14, Status.target_hit⟩ = none ∧
      checkStatusChange ⟨2, ['T'], 0, 9500, 9200, 10200, 14, Status.target_hit⟩
        100 3 = none ∧
      updateAllPredictions [⟨2, ['T'], 0, 9500, 9200, 10200, 14, Status.target_hit⟩]
        (fun _ => some 100) 7 = []) ∧
    ((⟨['P'], Status.pending, Status.entry_hit⟩ : StatusUpdate).previousStatus =
        (⟨3, ['P'], 0, 9500, 9200, 10200, 14, Status.pending⟩ : Recommendation).status ∧
      statusRank (⟨3, ['P'], 0, 9500, 9200, 10200, 14, Status.pending⟩ : Recommendation).status <
        statusRank (⟨['P'], Status.pending, Status.entry_hit⟩ : StatusUpdate).newStatus) :=
  ⟨(terminal_status_immutable ⟨2, ['T'], 0, 9500, 9200, 10200, 14, Status.target_hit⟩
      (fun _ => some 100) 7 100 3).1 (by decide),
   (terminal_status_immutable ⟨3, ['P'], 0, 9500, 9200, 10200, 14, Status.pending⟩
      (fun _ => some 9400) 1 9400 1).2
      ⟨['P'], Status.pending, Status.entry_hit⟩ (by decide)⟩


section Ranker

/-- An extracted ticker candidate (symbol, sentiment, relevance, reason). -/
structure ExtractedTicker where
  ticker : Str
  sentiment : Rat
  relevance : Rat
  reason : Str
deriving DecidableEq, Repr

/-- JavaScript `toUpperCase` on a ticker symbol. -/
def toUpperChars (t : Str) : Str := t.map Char.toUpper

/-- The ordering induced by the step-3 sort comparator
`(a, b) => b.relevance - a.relevance || b.sentiment - a.sentiment`:
`a` sorts no later than `b` when `a` has larger relevance, or equal
relevance and at-least-as-large sentiment. -/
def rankLE (a b : ExtractedTicker) : Bool :=
  decide (b.relevance < a.relevance) ||
    (decide (b.relevance = a.relevance) && decide (b.sentiment ≤ a.sentiment))

/-- Step 3 of the pipeline: keep `sentiment > 0.2`, drop tickers with an
open position, sort by relevance descending with ties by sentiment
descending (a stable sort, as JavaScript array sort is), take the first
ten. -/
def step3TopTickers (tickers : List ExtractedTicker) (activeTickers : List Str) :
    List ExtractedTicker :=
  ((((tickers.filter (fun t => decide (t.sentiment > 1/5))).filter
      (fun t => ! activeTickers.contains (toUpperChars t.ticker))).mergeSort
        rankLE).take 10)

theorem rankLE_iff (a b : ExtractedTicker) :
    rankLE a b = true ↔
      (b.relevance < a.relevance ∨
        (b.relevance = a.relevance ∧ b.sentiment ≤ a.sentiment)) := by
  simp [rankLE]

theorem rankLE_trans (a b c : ExtractedTicker) :
    rankLE a b → rankLE b c → rankLE a c := by
  intro hab hbc
  rw [rankLE_iff] at hab hbc ⊢
  rcases hab with hab | ⟨hab, hab'⟩
  · rcases hbc with hbc | ⟨hbc, hbc'⟩
    · exact Or.inl (lt_trans hbc hab)
    · exact Or.inl (hbc ▸ hab)
  · rcases hbc with hbc | ⟨hbc, hbc'⟩
    · exact Or.inl (hab ▸ hbc)
    · exact Or.inr ⟨hbc.trans hab, le_trans hbc' hab'⟩

theorem rankLE_total (a b : ExtractedTicker) : rankLE a b || rankLE b a := by
  rw [Bool.or_eq_true, rankLE_iff, rankLE_iff]
  rcases lt_trichotomy a.relevance b.relevance with h | h | h
  · exact Or.inr (Or.inl h)
  · rcases le_total a.sentiment b.sentiment with hs | hs
    · exact Or.inr (Or.inr ⟨h, hs⟩)
    · exact Or.inl (Or.inr ⟨h.symm, hs⟩)
  · exact Or.inl (Or.inl h)

end Ranker

/-- C5: step 3 produces at most ten tickers, every produced ticker has
sentiment above 0.2 and no open position, a ticker with an open position
never appears regardless of its scores, the output is sorted by relevance
descending with ties broken by sentiment descending, it is drawn (without
duplication) from the filtered input, whenever at most ten tickers
survive the filters the output is exactly the filtered input reordered,
the output keeps exactly `min 10 |filtered|` tickers, and the filtered
input splits into the output plus dropped tickers in which every kept
ticker ranks at least as high as every dropped one (so the output is the
first ten of the ranking).  An empty result is an ordinary value, not an
error. -/
theorem step3TopTickers_spec (tickers : List ExtractedTicker) (active : List Str) :
    (step3TopTickers tickers active).length ≤ 10 ∧
    (∀ t ∈ step3TopTickers tickers active,
      t.sentiment > 1/5 ∧ active.contains (toUpperChars t.ticker) = false) ∧
    (∀ t ∈ tickers, active.contains (toUpperChars t.ticker) = true →
      t ∉ step3TopTickers tickers active) ∧
    (step3TopTickers tickers active).Pairwise
      (fun a b => b.relevance < a.relevance ∨
        (b.relevance = a.relevance ∧ b.sentiment ≤ a.sentiment)) ∧
    List.Subperm (step3TopTickers tickers active)
      ((tickers.filter (fun t => decide (t.sentiment > 1/5))).filter
        (fun t => ! active.contains (toUpperChars t.ticker))) ∧
    (((tickers.filter (fun t => decide (t.sentiment > 1/5))).filter
        (fun t => ! active.contains (toUpperChars t.ticker))).length ≤ 10 →
      (step3TopTickers tickers active).Perm
        ((tickers.filter (fun t => decide (t.sentiment > 1/5))).filter
          (fun t => ! active.contains (toUpperChars t.ticker)))) ∧
    (step3TopTickers tickers active).length =
      min 10 (((tickers.filter (fun t => decide (t.sentiment > 1/5))).filter
        (fun t => ! active.contains (toUpperChars t.ticker))).length) ∧
    (∃ dropped,
      (step3TopTickers tickers active ++ dropped).Perm
        ((tickers.filter (fun t => decide (t.sentiment > 1/5))).filter
          (fun t => ! active.contains (toUpperChars t.ticker))) ∧
      ∀ a ∈ step3TopTickers tickers active, ∀ b ∈ dropped,
        b.relevance < a.relevance ∨
          (b.relevance = a.relevance ∧ b.sentiment ≤ a.sentiment)) := by
  have hmem : ∀ t ∈ step3TopTickers tickers active,
      t.sentiment > 1/5 ∧ active.contains (toUpperChars t.ticker) = false := by
    intro t ht
    rw [step3TopTickers] at ht
    have ht2 := List.mem_mergeSort.mp (List.take_subset 10 _ ht)
    rw [List.mem_filter] at ht2
    obtain ⟨ht3, hb2⟩ := ht2
    rw [List.mem_filter] at ht3
    obtain ⟨-, hb1⟩ := ht3
    refine ⟨of_decide_eq_true hb1, ?_⟩
    rwa [Bool.not_eq_true'] at hb2
  refine ⟨?_, hmem, ?_, ?_, ?_, ?_, ?_, ?_⟩
  · rw [step3TopTickers]
    exact List.length_take_le 10 _
  · intro t _ hact hin
    rw [(hmem t hin).2] at hact
    cases hact
  · rw [step3TopTickers]
    refine List.Pairwise.sublist (List.take_sublist 10 _) ?_
    refine List.Pairwise.imp ?_
      (List.sorted_mergeSort rankLE_trans rankLE_total _)
    intro a b h
    exact (rankLE_iff a b).mp h
  · rw [step3TopTickers]
    exact ((List.take_sublist 10 _).subperm).trans
      ((List.mergeSort_perm _ rankLE).subperm)
  · intro hlen
    rw [step3TopTickers, List.take_of_length_le (by rwa [List.length_mergeSort])]
    exact List.mergeSort_perm _ rankLE
  · rw [step3TopTickers, List.length_take, List.length_mergeSort]
  · refine ⟨(((tickers.filter (fun t => decide (t.sentiment > 1/5))).filter
        (fun t => ! active.contains (toUpperChars t.ticker))).mergeSort rankLE).drop 10,
      ?_, ?_⟩
    · rw [step3TopTickers, List.take_append_drop]
      exact List.mergeSort_perm _ rankLE
    · have hpw := List.sorted_mergeSort rankLE_trans rankLE_total
        ((tickers.filter (fun t => decide (t.sentiment > 1/5))).filter
          (fun t => ! active.contains (toUpperChars t.ticker)))
      rw [← List.take_append_drop 10
        (((tickers.filter (fun t => decide (t.sentiment > 1/5))).filter
          (fun t => ! active.contains (toUpperChars t.ticker))).mergeSort rankLE)] at hpw
      have hcross := (List.pairwise_append.mp hpw).2.2
      intro a ha b hb
      simp only [step3TopTickers] at ha
      exact (rankLE_iff a b).mp (hcross a ha b hb)

/-- Closed instance of the step-3 ranking on the spec scenario: three
candidates with the top scorer holding an open position; the hypothesis
(at most ten survivors) is discharged by computation. -/
theorem step3TopTickers_spec_witness :
    (step3TopTickers
        [⟨['B', 'B', 'C', 'A'], 1/2, 4/5, []⟩,
         ⟨['T', 'L', 'K', 'M'], 3/10, 9/10, []⟩,
         ⟨['A', 'D', 'R', 'O'], 9/10, 19/20, []⟩]
        [['A', 'D', 'R', 'O']]).Perm
      (([⟨['B', 'B', 'C', 'A'], 1/2, 4/5, []⟩,
         ⟨['T', 'L', 'K', 'M'], 3/10, 9/10, []⟩,
         ⟨['A', 'D', 'R', 'O'], 9/10, 19/20, []⟩].filter
            (fun t => decide (t.sentiment > 1/5))).filter
        (fun t => ! [['A', 'D', 'R', 'O']].contains (toUpperChars t.ticker))) :=
  (step3TopTickers_spec
      [⟨['B', 'B', 'C', 'A'], 1/2, 4/5, []⟩,
       ⟨['T', 'L', 'K', 'M'], 3/10, 9/10, []⟩,
       ⟨['A', 'D', 'R', 'O'], 9/10, 19/20, []⟩]
      [['A', 'D', 'R', 'O']]).2.2.2.2.2.1
    (le_trans (List.length_filter_le _ _)
      (le_trans (List.length_filter_le _ _) (by norm_num)))


section Pipeline

/-- Status of a `job_executions` row. -/
inductive JobStatus : Type
  | running
  | completed
  | failed
deriving DecidableEq, Repr

/-- A `job_executions` row: id, schedule, execution date, status. -/
structure JobRec where
  jobId : Nat
  schedule : Schedule
  executionDate : Str
  status : JobStatus
deriving DecidableEq, Repr

/-- Observable persistence events of one run, in program order. -/
inductive Event : Type
  | cacheCleared (date : Str) (s : Schedule)
  | recInserted (ticker : Str)
  | jobCompleted (jobId articlesProcessed tickersExtracted recommendationsGenerated : Nat)
  | jobFailed (jobId : Nat) (msg : Str)
deriving DecidableEq, Repr

/-- The step-1 cache payload `{totalNewArticles, successfulPortals}`. -/
structure Step1Cache where
  totalNewArticles : Nat
  successfulPortals : Nat
deriving DecidableEq, Repr

/-- The step-2 cache payload (ticker extraction result). -/
structure TickerExtractionResult where
  tickers : List ExtractedTicker
  articlesAnalyzed : Nat
  processingTimeMs : Nat
deriving DecidableEq, Repr

/-- Payloads the pipeline stores in the step cache (steps 1, 2, 3). -/
inductive Payload : Type
  | step1 (c : Step1Cache)
  | step2 (r : TickerExtractionResult)
  | step3 (l : List ExtractedTicker)
deriving DecidableEq, Repr

/-- A news article row as returned by `getRecentNewsArticles`. -/
structure Article where
  title : Str
  content : Option Str
  portal : Str
  publishedAt : Option Int
deriving DecidableEq, Repr

/-- State threaded through one run: the cache directory, the
`job_executions` table, the emitted events, and the run's `errors`
array. -/
structure PipeState where
  fs : FS Payload
  db : List JobRec
  trace : List Event
  errs : List Str
deriving DecidableEq, Repr

/-- State-and-exception monad of the embedded pipeline: an uncaught
JavaScript exception carries a message and leaves the state changes
already performed in place. -/
def Pipe (α : Type) : Type := PipeState → PipeState × Except Str α

instance : Monad Pipe where
  pure a := fun st => (st, .ok a)
  bind x f := fun st =>
    match x st with
    | (st', .ok a) => f a st'
    | (st', .error e) => (st', .error e)

/-- An external call that either returns or throws. -/
def Pipe.liftE {α : Type} (e : Except Str α) : Pipe α := fun st => (st, e)

/-- Read the current state. -/
def Pipe.getState : Pipe PipeState := fun st => (st, .ok st)

/-- Update the cache directory. -/
def Pipe.modifyFs (f : FS Payload → FS Payload) : Pipe Unit :=
  fun st => ({st with fs := f st.fs}, .ok ())

theorem Pipe.bind_eq {α β : Type} (x : Pipe α) (f : α → Pipe β) (st : PipeState) :
    (x >>= f) st =
      match x st with
      | (st', .ok a) => f a st'
      | (st', .error e) => (st', .error e) := rfl

theorem Pipe.pure_eq {α : Type} (a : α) (st : PipeState) :
    (pure a : Pipe α) st = (st, .ok a) := rfl

/-- Result of `fetchCurrentQuote`: success flag, quote data when any. -/
structure QuoteResult where
  success : Bool
  data : Option Rat
deriving DecidableEq, Repr

/-- The LLM's verdict on a stock. -/
inductive Action : Type
  | BUY
  | HOLD
  | AVOID
deriving DecidableEq, Repr

/-- Result of `analyzeStock` for one ticker (the fields the orchestrator
branches on; the price levels only flow into the inserted row). -/
structure Analysis where
  action : Action
  overallScore : Rat
deriving DecidableEq, Repr

/-- The external collaborators of one run.  Each call either returns a
value (`Except.ok`) or throws (`Except.error` with a message); data that
only flows back into later collaborator calls (quotes, fundamentals,
technical summaries, active-prediction inputs) is absorbed into the
collaborator functions, which are indexed by the ticker. -/
structure Collab where
  crawl : Except Str Step1Cache
  recentArticles : List Article
  extract : List Article → Except Str TickerExtractionResult
  activeTickers : List Str
  tracked : Except Str Unit
  quote : Str → Except Str QuoteResult
  fundamentals : Str → Except Str Unit
  history : Str → Except Str Bool
  analyze : Str → Except Str (Option Analysis)
  updatePreds : Except Str Nat

/-- The article filter before step 2: keep articles with no `publishedAt`
or published within `MAX_NEWS_AGE_DAYS` (one day, in ms) of now, and
truncate content to `MAX_CONTENT_LENGTH` (200) characters. -/
def articlesForExtraction (arts : List Article) (now : Int) : List Article :=
  (arts.filter (fun a =>
      match a.publishedAt with
      | none => true
      | some p => decide (now - 24 * 60 * 60 * 1000 ≤ p))).map
    (fun a => {a with content := a.content.map (fun cnt => cnt.take 200)})

/-- The body of the per-ticker `try` block of step 4: fetch the quote
(skip the ticker when missing), fetch fundamentals, fetch the price
history (skip when unavailable), run the scoring collaborator, and on a
BUY with `overallScore >= MIN_OVERALL_SCORE` (65) insert a
recommendation.  Any `await` may throw; the throw propagates to the
caller with the state changes made so far. -/
def processTicker (c : Collab) (t : ExtractedTicker) : Pipe (Option (Str × Rat)) :=
  fun st =>
    match c.quote t.ticker with
    | .error m => (st, .error m)
    | .ok qr =>
      match qr.success, qr.data with
      | true, some _price =>
        match c.fundamentals t.ticker with
        | .error m => (st, .error m)
        | .ok _ =>
          match c.history t.ticker with
          | .error m => (st, .error m)
          | .ok hOk =>
            if hOk then
              match c.analyze t.ticker with
              | .error m => (st, .error m)
              | .ok (some a) =>
                if decide (a.overallScore ≥ 65) && (a.action == Action.BUY) then
                  ({st with trace := st.trace ++ [.recInserted t.ticker]},
                    .ok (some (t.ticker, a.overallScore)))
                else (st, .ok none)
              | .ok none => (st, .ok none)
            else (st, .ok none)
      | _, _ => (st, .ok none)

/-- The step-4 loop: one iteration per ranked ticker.  An exception from
the per-ticker body is caught, its message is appended to the run's
`errors` array, and the loop continues; after each iteration the loop
stops once `MAX_RECOMMENDATIONS_PER_RUN` (5) recommendations exist. -/
def step4Loop (c : Collab) : List ExtractedTicker → List (Str × Rat) →
    PipeState → PipeState × List (Str × Rat)
  | [], recs, st => (st, recs)
  | t :: rest, recs, st =>
    match processTicker c t st with
    | (st', .ok r) =>
      let recs' := recs ++ r.toList
      if 5 ≤ recs'.length then (st', recs')
      else step4Loop c rest recs' st'
    | (st', .error m) =>
      let st'' := {st' with errs := st'.errs ++ [t.ticker ++ ':' :: ' ' :: m]}
      if 5 ≤ recs.length then (st'', recs)
      else step4Loop c rest recs st''

/-- Step 1 executed: crawl, then persist the result to the step cache. -/
def step1Run (c : Collab) (now : Int) (today : Str) (sched : Schedule) :
    Pipe Step1Cache :=
  Pipe.liftE c.crawl >>= fun cs =>
  Pipe.modifyFs (fun fs => setStepCache fs now today sched 1 (.step1 cs)) >>= fun _ =>
  pure cs

/-- Step 1 skipped: read the cached crawl stats, defaulting to zeros
(`?? { totalNewArticles: 0, successfulPortals: 0 }`). -/
def step1Cached (now : Int) (today : Str) (sched : Schedule) : Pipe Step1Cache :=
  Pipe.getState >>= fun stc =>
  pure (match getStepCache stc.fs now today sched 1 with
        | some (.step1 cs) => cs
        | _ => ⟨0, 0⟩)

/-- Step 2 executed: extract tickers from the recent articles, then
persist the result to the step cache. -/
def step2Run (c : Collab) (now : Int) (today : Str) (sched : Schedule) :
    Pipe TickerExtractionResult :=
  Pipe.liftE (c.extract (articlesForExtraction c.recentArticles now)) >>= fun tr =>
  Pipe.modifyFs (fun fs => setStepCache fs now today sched 2 (.step2 tr)) >>= fun _ =>
  pure tr

/-- Step 2 skipped: read the cached extraction, defaulting to an empty
result. -/
def step2Cached (now : Int) (today : Str) (sched : Schedule) :
    Pipe TickerExtractionResult :=
  Pipe.getState >>= fun stc =>
  pure (match getStepCache stc.fs now today sched 2 with
        | some (.step2 tr) => tr
        | _ => ⟨[], 0, 0⟩)

/-- Step 3 executed: rank the tickers (excluding active positions), then
persist the top list to the step cache. -/
def step3Run (c : Collab) (now : Int) (today : Str) (sched : Schedule)
    (tickerResult : TickerExtractionResult) : Pipe (List ExtractedTicker) :=
  Pipe.modifyFs (fun fs => setStepCache fs now today sched 3
    (.step3 (step3TopTickers tickerResult.tickers c.activeTickers))) >>= fun _ =>
  pure (step3TopTickers tickerResult.tickers c.activeTickers)

/-- Step 3 skipped: read the cached top tickers, defaulting to `[]`. -/
def step3Cached (now : Int) (today : Str) (sched : Schedule) :
    Pipe (List ExtractedTicker) :=
  Pipe.getState >>= fun stc =>
  pure (match getStepCache stc.fs now today sched 3 with
        | some (.step3 tt) => tt
        | _ => [])

/-- Steps 1 to 5 below the resume point, returning `(articlesProcessed,
tickersExtracted, recommendationsGenerated, predictionsUpdated)`.  A step
below the resume point replays its cached payload; steps 4 and 5 always
run. -/
def pipelineSteps (c : Collab) (now : Int) (today : Str) (sched : Schedule)
    (resumeFrom : Nat) : Pipe (Nat × Nat × Nat × Nat) :=
  (if resumeFrom ≤ 1 then step1Run c now today sched
   else step1Cached now today sched) >>= fun crawlStats =>
  (if resumeFrom ≤ 2 then step2Run c now today sched
   else step2Cached now today sched) >>= fun tickerResult =>
  (if resumeFrom ≤ 3 then step3Run c now today sched tickerResult
   else step3Cached now today sched) >>= fun topTickers =>
  Pipe.liftE c.tracked >>= fun _ =>
  (fun st =>
    match step4Loop c topTickers [] st with
    | (st', rs) => (st', Except.ok rs)) >>= fun recs =>
  Pipe.liftE c.updatePreds >>= fun predictionsUpdated =>
  pure (crawlStats.totalNewArticles, tickerResult.tickers.length,
    recs.length, predictionsUpdated)

/-- The body of the `try` block of `runDailyAnalysis`: determine the
resume point from the cached steps (`CACHEABLE_STEPS = 3`), then run
steps 1 to 5. -/
def pipelineBody (c : Collab) (now : Int) (today : Str) (sched : Schedule) :
    Pipe (Nat × Nat × Nat × Nat) :=
  Pipe.getState >>= fun st0 =>
  pipelineSteps c now today sched (getResumeStep st0.fs now today sched 3)

/-- Modelled from the spec: `hasJobRunToday` lives in
`src/lib/database/queries.ts`, absent from the snapshot; per the spec the
idempotency guard asks whether a job with this schedule has already
completed today. -/
def hasJobRunToday (sched : Schedule) (today : Str) (db : List JobRec) : Bool :=
  db.any (fun r => r.schedule == sched && r.executionDate == today &&
    r.status == JobStatus.completed)

/-- Modelled from the spec: `startJobExecution` (`queries.ts`, absent)
appends a running `job_executions` row and returns its fresh id. -/
def startJobExecution (sched : Schedule) (today : Str) (db : List JobRec) :
    Nat × List JobRec :=
  (db.length + 1, db ++ [⟨db.length + 1, sched, today, .running⟩])

/-- Modelled from the spec: `completeJobExecution` (`queries.ts`, absent)
marks the job row completed. -/
def completeJobExecution (jobId : Nat) (db : List JobRec) : List JobRec :=
  db.map (fun r => if r.jobId = jobId then {r with status := .completed} else r)

/-- Modelled from the spec: `failJobExecution` (`queries.ts`, absent)
marks the job row failed with the message. -/
def failJobExecution (jobId : Nat) (db : List JobRec) : List JobRec :=
  db.map (fun r => if r.jobId = jobId then {r with status := .failed} else r)

/-- The `JobResult` record returned by `runDailyAnalysis`. -/
structure JobResult where
  success : Bool
  jobId : Nat
  articlesProcessed : Nat
  tickersFound : Nat
  recommendationsGenerated : Nat
  predictionsUpdated : Nat
  errors : List Str
deriving DecidableEq, Repr

/-- The early-exit message of the idempotency guard. -/
def alreadyMsg (sched : Schedule) : Str :=
  scheduleChars sched ++ String.toList " analysis already completed for today"

/-- Embedding of `runDailyAnalysis`: the idempotency guard, the job row,
the `try` around steps 1 to 5, the cache clear followed by the completion
record on success, and the catch-all that records the failure and leaves
the step cache alone. -/
def runDailyAnalysis (c : Collab) (now : Int) (today : Str) (sched : Schedule)
    (force : Bool) (st : PipeState) : PipeState × JobResult :=
  if !force && hasJobRunToday sched today st.db then
    (st, ⟨false, 0, 0, 0, 0, 0, [alreadyMsg sched]⟩)
  else
    let jobId := (startJobExecution sched today st.db).1
    let st1 : PipeState :=
      {st with db := (startJobExecution sched today st.db).2, errs := []}
    match pipelineBody c now today sched st1 with
    | (st2, .ok r) =>
      let st3 : PipeState :=
        {st2 with fs := clearStepCache today sched st2.fs,
                  trace := st2.trace ++ [.cacheCleared today sched]}
      let st4 : PipeState :=
        {st3 with db := completeJobExecution jobId st3.db,
                  trace := st3.trace ++ [.jobCompleted jobId r.1 r.2.1 r.2.2.1]}
      (st4, ⟨true, jobId, r.1, r.2.1, r.2.2.1, r.2.2.2, st4.errs⟩)
    | (st2, .error m) =>
      let st3 : PipeState :=
        {st2 with db := failJobExecution jobId st2.db,
                  trace := st2.trace ++ [.jobFailed jobId m]}
      (st3, ⟨false, jobId, 0, 0, 0, 0, m :: st3.errs⟩)

end Pipeline


section PipelineLemmas

/-- A pipeline fragment is tame when it never touches the
`job_executions` table and only appends non-clear events to the trace:
this holds of everything inside the `try` block of `runDailyAnalysis`. -/
def Tame {α : Type} (m : Pipe α) : Prop :=
  ∀ st, (m st).1.db = st.db ∧
    ∃ Δ, (m st).1.trace = st.trace ++ Δ ∧
      ∀ d s, Event.cacheCleared d s ∉ Δ

theorem tame_pure {α : Type} (a : α) : Tame (pure a : Pipe α) := by
  intro st
  exact ⟨rfl, [], (List.append_nil _).symm, by simp⟩

theorem tame_liftE {α : Type} (e : Except Str α) : Tame (Pipe.liftE e) := by
  intro st
  exact ⟨rfl, [], (List.append_nil _).symm, by simp⟩

theorem tame_getState : Tame Pipe.getState := by
  intro st
  exact ⟨rfl, [], (List.append_nil _).symm, by simp⟩

theorem tame_modifyFs (f : FS Payload → FS Payload) : Tame (Pipe.modifyFs f) := by
  intro st
  exact ⟨rfl, [], (List.append_nil _).symm, by simp⟩

theorem tame_bind {α β : Type} {x : Pipe α} {f : α → Pipe β}
    (hx : Tame x) (hf : ∀ a, Tame (f a)) : Tame (x >>= f) := by
  intro st
  obtain ⟨hdb, Δ₁, htr, hcl⟩ := hx st
  cases hxs : x st with
  | mk st' res =>
    rw [hxs] at hdb htr
    cases res with
    | ok a =>
      have hb : (x >>= f) st = f a st' := by
        rw [Pipe.bind_eq, hxs]
      obtain ⟨hdb₂, Δ₂, htr₂, hcl₂⟩ := hf a st'
      rw [hb]
      refine ⟨by rw [hdb₂, hdb], Δ₁ ++ Δ₂, ?_, ?_⟩
      · rw [htr₂, htr, List.append_assoc]
      · intro d s hmem
        rcases List.mem_append.mp hmem with hm | hm
        · exact hcl d s hm
        · exact hcl₂ d s hm
    | error e =>
      have hb : (x >>= f) st = (st', .error e) := by
        rw [Pipe.bind_eq, hxs]
      rw [hb]
      exact ⟨hdb, Δ₁, htr, hcl⟩

theorem tame_ite {α : Type} {p : Prop} [Decidable p] {m₁ m₂ : Pipe α}
    (h₁ : Tame m₁) (h₂ : Tame m₂) : Tame (if p then m₁ else m₂) := by
  by_cases h : p
  · rwa [if_pos h]
  · rwa [if_neg h]

/-- The per-ticker body only appends `recInserted` events: the cache
directory, the job table, and previous trace entries are untouched. -/
theorem processTicker_state (c : Collab) (t : ExtractedTicker) (st : PipeState) :
    (processTicker c t st).1.db = st.db ∧
    (processTicker c t st).1.fs = st.fs ∧
    (processTicker c t st).1.errs = st.errs ∧
    ∃ Δ, (processTicker c t st).1.trace = st.trace ++ Δ ∧
      ∀ d s, Event.cacheCleared d s ∉ Δ := by
  rw [processTicker]
  cases hq : c.quote t.ticker with
  | error m => exact ⟨rfl, rfl, rfl, [], (List.append_nil _).symm, by simp⟩
  | ok qr =>
    obtain ⟨suc, dat⟩ := qr
    cases suc with
    | false => exact ⟨rfl, rfl, rfl, [], (List.append_nil _).symm, by simp⟩
    | true =>
      cases dat with
      | none => exact ⟨rfl, rfl, rfl, [], (List.append_nil _).symm, by simp⟩
      | some price =>
        cases hf : c.fundamentals t.ticker with
        | error m => exact ⟨rfl, rfl, rfl, [], (List.append_nil _).symm, by simp⟩
        | ok u =>
          cases hh : c.history t.ticker with
          | error m => exact ⟨rfl, rfl, rfl, [], (List.append_nil _).symm, by simp⟩
          | ok hOk =>
            cases hOk with
            | false => exact ⟨rfl, rfl, rfl, [], (List.append_nil _).symm, by simp⟩
            | true =>
              cases ha : c.analyze t.ticker with
              | error m => exact ⟨rfl, rfl, rfl, [], (List.append_nil _).symm, by simp⟩
              | ok a? =>
                cases a? with
                | none => exact ⟨rfl, rfl, rfl, [], (List.append_nil _).symm, by simp⟩
                | some a =>
                  simp only []
                  by_cases hsc : (decide (a.overallScore ≥ 65) &&
                      (a.action == Action.BUY)) = true
                  · rw [if_pos hsc]
                    exact ⟨rfl, rfl, rfl, [Event.recInserted t.ticker], rfl, by simp⟩
                  · rw [if_neg hsc]
                    exact ⟨rfl, rfl, rfl, [], (List.append_nil _).symm, by simp⟩

/-- The step-4 loop is tame: it changes only the trace (appending
`recInserted` events) and the `errors` array. -/
theorem step4Loop_state (c : Collab) : ∀ (tickers : List ExtractedTicker)
    (recs : List (Str × Rat)) (st : PipeState),
    (step4Loop c tickers recs st).1.db = st.db ∧
    ∃ Δ, (step4Loop c tickers recs st).1.trace = st.trace ++ Δ ∧
      ∀ d s, Event.cacheCleared d s ∉ Δ := by
  intro tickers
  induction tickers with
  | nil =>
    intro recs st
    exact ⟨rfl, [], (List.append_nil _).symm, by simp⟩
  | cons t rest ih =>
    intro recs st
    obtain ⟨hdb, -, -, Δ₁, htr, hcl⟩ := processTicker_state c t st
    cases hpt : processTicker c t st with
    | mk st' res =>
      rw [hpt] at hdb htr
      cases res with
      | ok r =>
        have hs : step4Loop c (t :: rest) recs st =
            if 5 ≤ (recs ++ r.toList).length then (st', recs ++ r.toList)
            else step4Loop c rest (recs ++ r.toList) st' := by
          rw [step4Loop, hpt]
        rw [hs]
        by_cases hlen : 5 ≤ (recs ++ r.toList).length
        · rw [if_pos hlen]
          exact ⟨hdb, Δ₁, htr, hcl⟩
        · rw [if_neg hlen]
          obtain ⟨hdb₂, Δ₂, htr₂, hcl₂⟩ := ih (recs ++ r.toList) st'
          refine ⟨by rw [hdb₂, hdb], Δ₁ ++ Δ₂, ?_, ?_⟩
          · rw [htr₂, htr, List.append_assoc]
          · intro d s hmem
            rcases List.mem_append.mp hmem with hm | hm
            · exact hcl d s hm
            · exact hcl₂ d s hm
      | error m =>
        have hs : step4Loop c (t :: rest) recs st =
            if 5 ≤ recs.length then
              ({st' with errs := st'.errs ++ [t.ticker ++ ':' :: ' ' :: m]}, recs)
            else step4Loop c rest recs
              {st' with errs := st'.errs ++ [t.ticker ++ ':' :: ' ' :: m]} := by
          rw [step4Loop, hpt]
        rw [hs]
        by_cases hlen : 5 ≤ recs.length
        · rw [if_pos hlen]
          exact ⟨hdb, Δ₁, htr, hcl⟩
        · rw [if_neg hlen]
          obtain ⟨hdb₂, Δ₂, htr₂, hcl₂⟩ :=
            ih recs {st' with errs := st'.errs ++ [t.ticker ++ ':' :: ' ' :: m]}
          refine ⟨by rw [hdb₂]; exact hdb, Δ₁ ++ Δ₂, ?_, ?_⟩
          · rw [htr₂, htr, List.append_assoc]
          · intro d s hmem
            rcases List.mem_append.mp hmem with hm | hm
            · exact hcl d s hm
            · exact hcl₂ d s hm

theorem tame_step4Runner (c : Collab) (topTickers : List ExtractedTicker) :
    Tame (fun st =>
      match step4Loop c topTickers [] st with
      | (st', rs) => (st', Except.ok rs)) := by
  intro st
  obtain ⟨hdb, Δ, htr, hcl⟩ := step4Loop_state c topTickers [] st
  refine ⟨?_, Δ, ?_, hcl⟩
  · show (match step4Loop c topTickers [] st with
      | (st', rs) => (st', Except.ok rs)).1.db = st.db
    cases hp : step4Loop c topTickers [] st with
    | mk st' rs =>
      rw [hp] at hdb
      exact hdb
  · show (match step4Loop c topTickers [] st with
      | (st', rs) => (st', Except.ok rs)).1.trace = st.trace ++ Δ
    cases hp : step4Loop c topTickers [] st with
    | mk st' rs =>
      rw [hp] at htr
      exact htr

/-- Steps 1 to 5 never clear the step cache and never touch the job
table. -/
theorem tame_pipelineSteps (c : Collab) (now : Int) (today : Str)
    (sched : Schedule) (resumeFrom : Nat) :
    Tame (pipelineSteps c now today sched resumeFrom) := by
  rw [pipelineSteps]
  refine tame_bind (tame_ite ?_ ?_) (fun crawlStats =>
    tame_bind (tame_ite ?_ ?_) (fun tickerResult =>
      tame_bind (tame_ite ?_ ?_) (fun topTickers =>
        tame_bind (tame_liftE _) (fun _ =>
          tame_bind (tame_step4Runner c topTickers) (fun recs =>
            tame_bind (tame_liftE _)
              (fun predictionsUpdated => tame_pure _))))))
  · rw [step1Run]
    exact tame_bind (tame_liftE _)
      (fun cs => tame_bind (tame_modifyFs _) (fun _ => tame_pure _))
  · rw [step1Cached]
    exact tame_bind tame_getState (fun stc => tame_pure _)
  · rw [step2Run]
    exact tame_bind (tame_liftE _)
      (fun tr => tame_bind (tame_modifyFs _) (fun _ => tame_pure _))
  · rw [step2Cached]
    exact tame_bind tame_getState (fun stc => tame_pure _)
  · rw [step3Run]
    exact tame_bind (tame_modifyFs _) (fun _ => tame_pure _)
  · rw [step3Cached]
    exact tame_bind tame_getState (fun stc => tame_pure _)

theorem tame_pipelineBody (c : Collab) (now : Int) (today : Str)
    (sched : Schedule) : Tame (pipelineBody c now today sched) := by
  rw [pipelineBody]
  exact tame_bind tame_getState (fun st0 =>
    tame_pipelineSteps c now today sched (getResumeStep st0.fs now today sched 3))

end PipelineLemmas


section WitnessData

/-- Witness date 2024-01-15. -/
def todayW : Str := String.toList "2024-01-15"

/-- Witness cache: all three cacheable steps stored at time 0. -/
def fsW : FS Payload :=
  [(getCachePath todayW Schedule.morning 1, .entry 0 (.step1 ⟨3, 2⟩)),
   (getCachePath todayW Schedule.morning 2, .entry 0 (.step2 ⟨[], 0, 0⟩)),
   (getCachePath todayW Schedule.morning 3, .entry 0 (.step3 []))]

/-- Witness initial state. -/
def stW : PipeState := ⟨fsW, [], [], []⟩

/-- Witness state after the job row is started. -/
def stW1 : PipeState :=
  {stW with db := (startJobExecution Schedule.morning todayW stW.db).2, errs := []}

/-- Witness state whose job table already has a completed run today. -/
def stDoneW : PipeState :=
  ⟨[], [⟨1, Schedule.morning, todayW, .completed⟩], [], []⟩

/-- Witness collaborators: steps 1, 2, 5 succeed, every quote fetch
throws. -/
def collabOkW : Collab :=
  ⟨.ok ⟨3, 2⟩, [], fun _ => .ok ⟨[], 0, 0⟩, [], .ok (),
   fun _ => .error (String.toList "boom"), fun _ => .ok (), fun _ => .ok true,
   fun _ => .ok none, .ok 0⟩

/-- Witness collaborators whose step 5 throws. -/
def collabBadW : Collab :=
  {collabOkW with updatePreds := .error (String.toList "db down")}

/-- A ticker candidate that survives every filter. -/
def tickerInsW : ExtractedTicker := ⟨['B', 'B', 'C', 'A'], 1, 1, []⟩

/-- Witness cache whose cached step 3 holds one ranked ticker. -/
def fsInsW : FS Payload :=
  [(getCachePath todayW Schedule.morning 1, .entry 0 (.step1 ⟨1, 1⟩)),
   (getCachePath todayW Schedule.morning 2, .entry 0 (.step2 ⟨[tickerInsW], 1, 1⟩)),
   (getCachePath todayW Schedule.morning 3, .entry 0 (.step3 [tickerInsW]))]

/-- Witness initial state for the double-append scenario. -/
def stInsW : PipeState := ⟨fsInsW, [], [], []⟩

/-- Collaborators that score the ticker a qualifying BUY in step 4 and
then throw in step 5. -/
def collabInsW : Collab :=
  ⟨.ok ⟨1, 1⟩, [], fun _ => .ok ⟨[tickerInsW], 1, 1⟩, [], .ok (),
   fun _ => .ok ⟨true, some 100⟩, fun _ => .ok (), fun _ => .ok true,
   fun _ => .ok (some ⟨.BUY, 70⟩), .error (String.toList "step5 down")⟩

end WitnessData


section RunLemmas

theorem runDailyAnalysis_ok_eq (c : Collab) (now : Int) (today : Str)
    (sched : Schedule) (force : Bool) (st st2 : PipeState)
    (r : Nat × Nat × Nat × Nat)
    (hguard : (!force && hasJobRunToday sched today st.db) = false)
    (hp : pipelineBody c now today sched
      {st with db := (startJobExecution sched today st.db).2, errs := []} =
        (st2, .ok r)) :
    runDailyAnalysis c now today sched force st =
      ({st2 with
          fs := clearStepCache today sched st2.fs,
          db := completeJobExecution (startJobExecution sched today st.db).1 st2.db,
          trace := st2.trace ++ [.cacheCleared today sched,
            .jobCompleted (startJobExecution sched today st.db).1 r.1 r.2.1 r.2.2.1]},
       ⟨true, (startJobExecution sched today st.db).1, r.1, r.2.1, r.2.2.1, r.2.2.2,
         st2.errs⟩) := by
  rw [runDailyAnalysis, if_neg (by rw [hguard]; exact Bool.false_ne_true)]
  simp only [hp]
  simp [List.append_assoc]

theorem runDailyAnalysis_error_eq (c : Collab) (now : Int) (today : Str)
    (sched : Schedule) (force : Bool) (st st2 : PipeState) (m : Str)
    (hguard : (!force && hasJobRunToday sched today st.db) = false)
    (hp : pipelineBody c now today sched
      {st with db := (startJobExecution sched today st.db).2, errs := []} =
        (st2, .error m)) :
    runDailyAnalysis c now today sched force st =
      ({st2 with
          db := failJobExecution (startJobExecution sched today st.db).1 st2.db,
          trace := st2.trace ++ [.jobFailed (startJobExecution sched today st.db).1 m]},
       ⟨false, (startJobExecution sched today st.db).1, 0, 0, 0, 0, m :: st2.errs⟩) := by
  rw [runDailyAnalysis, if_neg (by rw [hguard]; exact Bool.false_ne_true)]
  simp only [hp]

end RunLemmas

/-- C3: when steps 1 to 5 finish without an uncaught exception, the step
cache of the run key is cleared before the job is recorded complete (the
clear event and the completion record end the trace in that order, and no
cache file of the run key survives); when an uncaught exception escapes
the steps, the failure is recorded with the thrown message, the cache is
exactly as the steps left it, and no clear event is ever emitted. -/
theorem runDailyAnalysis_cache_lifecycle (c : Collab) (now : Int)
    (today : Str) (sched : Schedule) (force : Bool) (st st2 : PipeState)
    (hguard : (!force && hasJobRunToday sched today st.db) = false) :
    (∀ r, pipelineBody c now today sched
        {st with db := (startJobExecution sched today st.db).2, errs := []} =
          (st2, .ok r) →
      (runDailyAnalysis c now today sched force st).2.success = true ∧
      (runDailyAnalysis c now today sched force st).1.trace =
        st2.trace ++ [.cacheCleared today sched,
          .jobCompleted (startJobExecution sched today st.db).1 r.1 r.2.1 r.2.2.1] ∧
      (∀ n, lookupFile (runDailyAnalysis c now today sched force st).1.fs
        (getCachePath today sched n) = none)) ∧
    (∀ m, pipelineBody c now today sched
        {st with db := (startJobExecution sched today st.db).2, errs := []} =
          (st2, .error m) →
      (runDailyAnalysis c now today sched force st).2.success = false ∧
      (runDailyAnalysis c now today sched force st).1.fs = st2.fs ∧
      (runDailyAnalysis c now today sched force st).1.trace =
        st2.trace ++ [.jobFailed (startJobExecution sched today st.db).1 m] ∧
      ∃ Δ, (runDailyAnalysis c now today sched force st).1.trace = st.trace ++ Δ ∧
        ∀ d s, Event.cacheCleared d s ∉ Δ) := by
  constructor
  · intro r hp
    rw [runDailyAnalysis_ok_eq c now today sched force st st2 r hguard hp]
    refine ⟨rfl, rfl, ?_⟩
    intro n
    show lookupFile (clearStepCache today sched st2.fs)
      (getCachePath today sched n) = none
    rw [clearStepCache, lookupFile_clearFiles,
      if_pos (clearPattern_startsWith_own today sched n)]
  · intro m hp
    rw [runDailyAnalysis_error_eq c now today sched force st st2 m hguard hp]
    obtain ⟨-, Δ, htr, hcl⟩ := tame_pipelineBody c now today sched
      {st with db := (startJobExecution sched today st.db).2, errs := []}
    rw [hp] at htr
    have htr2 : st2.trace = st.trace ++ Δ := htr
    refine ⟨rfl, rfl, rfl,
      Δ ++ [.jobFailed (startJobExecution sched today st.db).1 m], ?_, ?_⟩
    · show st2.trace ++ [.jobFailed (startJobExecution sched today st.db).1 m] =
        st.trace ++ (Δ ++ [.jobFailed (startJobExecution sched today st.db).1 m])
      rw [htr2, List.append_assoc]
    · intro d s hm
      rcases List.mem_append.mp hm with h1 | h1
      · exact hcl d s h1
      · simp at h1

/-- Closed instance of the cache lifecycle: with all three steps cached, a
run whose step 5 succeeds ends successfully with its cache files gone,
while a run whose step 5 throws fails and leaves the cache untouched. -/
theorem runDailyAnalysis_cache_lifecycle_witness :
    ((runDailyAnalysis collabOkW 0 todayW Schedule.morning false stW).2.success = true ∧
      lookupFile (runDailyAnalysis collabOkW 0 todayW Schedule.morning false stW).1.fs
        (getCachePath todayW Schedule.morning 1) = none) ∧
    ((runDailyAnalysis collabBadW 0 todayW Schedule.morning false stW).2.success = false ∧
      (runDailyAnalysis collabBadW 0 todayW Schedule.morning false stW).1.fs = stW1.fs) :=
  have h1 := (runDailyAnalysis_cache_lifecycle collabOkW 0 todayW Schedule.morning
    false stW stW1 rfl).1 (3, 0, 0, 0) rfl
  have h2 := (runDailyAnalysis_cache_lifecycle collabBadW 0 todayW Schedule.morning
    false stW stW1 rfl).2 (String.toList "db down") rfl
  ⟨⟨h1.1, h1.2.2 1⟩, h2.1, h2.2.1⟩

theorem processTicker_error_state (c : Collab) (t : ExtractedTicker)
    (st st' : PipeState) (m : Str)
    (h : processTicker c t st = (st', .error m)) : st' = st := by
  rw [processTicker] at h
  cases hq : c.quote t.ticker with
  | error e =>
    simp only [hq] at h
    exact (congrArg Prod.fst h).symm
  | ok qr =>
    obtain ⟨suc, dat⟩ := qr
    cases suc with
    | false =>
      simp only [hq] at h
      exact (congrArg Prod.fst h).symm
    | true =>
      cases dat with
      | none =>
        simp only [hq] at h
        exact (congrArg Prod.fst h).symm
      | some price =>
        simp only [hq] at h
        cases hf : c.fundamentals t.ticker with
        | error e =>
          simp only [hf] at h
          exact (congrArg Prod.fst h).symm
        | ok u =>
          simp only [hf] at h
          cases hh : c.history t.ticker with
          | error e =>
            simp only [hh] at h
            exact (congrArg Prod.fst h).symm
          | ok hOk =>
            cases hOk with
            | false =>
              simp only [hh] at h
              rw [if_neg Bool.false_ne_true] at h
              exact (congrArg Prod.fst h).symm
            | true =>
              simp only [hh, if_true] at h
              cases ha : c.analyze t.ticker with
              | error e =>
                simp only [ha] at h
                exact (congrArg Prod.fst h).symm
              | ok a? =>
                cases a? with
                | none =>
                  simp only [ha] at h
                  exact (congrArg Prod.fst h).symm
                | some a =>
                  simp only [ha] at h
                  by_cases hsc : (decide (a.overallScore ≥ 65) &&
                      (a.action == Action.BUY)) = true
                  · rw [if_pos hsc] at h
                    exact absurd (congrArg Prod.snd h) (by simp)
                  · rw [if_neg hsc] at h
                    exact (congrArg Prod.fst h).symm

/-- C8: an exception thrown while fetching or scoring one ticker is
caught inside the loop body: the state is exactly as it was before the
ticker (nothing aborted), the ticker's message is recorded in the run's
`errors` array, and the loop continues with the remaining tickers. -/
theorem step4_per_ticker_isolation (c : Collab) (t : ExtractedTicker)
    (rest : List ExtractedTicker) (recs : List (Str × Rat))
    (st st' : PipeState) (m : Str)
    (herr : processTicker c t st = (st', .error m))
    (hlen : recs.length < 5) :
    st' = st ∧
    step4Loop c (t :: rest) recs st =
      step4Loop c rest recs
        {st with errs := st.errs ++ [t.ticker ++ ':' :: ' ' :: m]} := by
  have hst : st' = st := processTicker_error_state c t st st' m herr
  rw [hst] at herr
  refine ⟨hst, ?_⟩
  have hs : step4Loop c (t :: rest) recs st =
      if 5 ≤ recs.length then
        ({st with errs := st.errs ++ [t.ticker ++ ':' :: ' ' :: m]}, recs)
      else step4Loop c rest recs
        {st with errs := st.errs ++ [t.ticker ++ ':' :: ' ' :: m]} := by
    rw [step4Loop, herr]
  rw [hs, if_neg (by omega)]

/-- Closed instance of per-ticker isolation: a ticker whose quote fetch
throws is recorded and skipped, and the loop moves on. -/
theorem step4_per_ticker_isolation_witness :
    (stW = stW) ∧
    step4Loop collabOkW [⟨['B', 'B', 'C', 'A'], 1, 1, []⟩] [] stW =
      step4Loop collabOkW [] []
        {stW with errs := stW.errs ++
          [(⟨['B', 'B', 'C', 'A'], 1, 1, []⟩ : ExtractedTicker).ticker ++
            ':' :: ' ' :: String.toList "boom"]} :=
  step4_per_ticker_isolation collabOkW ⟨['B', 'B', 'C', 'A'], 1, 1, []⟩ [] []
    stW stW (String.toList "boom") rfl (by decide)

theorem guard_noop_of_hasJobRunToday (c : Collab) (now : Int) (today : Str)
    (sched : Schedule) (st : PipeState)
    (h : hasJobRunToday sched today st.db = true) :
    runDailyAnalysis c now today sched false st =
      (st, ⟨false, 0, 0, 0, 0, 0, [alreadyMsg sched]⟩) := by
  rw [runDailyAnalysis, if_pos (by simp [h])]

/-- The claim "two unforced runs with the same run key never both append
recommendations for the same day" is false of the code: a run can insert
a recommendation in step 4 and then fail in step 5, leaving the job
marked failed rather than completed, so a second unforced run passes the
guard and inserts again.  Concretely: both unforced runs below insert the
same ticker (one insert event after the first run, two after the
second), the first run having ended unsuccessfully. -/
theorem runDailyAnalysis_double_append :
    (runDailyAnalysis collabInsW 0 todayW Schedule.morning false stInsW).2.success =
      false ∧
    (runDailyAnalysis collabInsW 0 todayW Schedule.morning false stInsW).1.trace.count
      (Event.recInserted tickerInsW.ticker) = 1 ∧
    (runDailyAnalysis collabInsW 0 todayW Schedule.morning false
        (runDailyAnalysis collabInsW 0 todayW Schedule.morning false stInsW).1).1.trace.count
      (Event.recInserted tickerInsW.ticker) = 2 :=
  ⟨rfl, rfl, rfl⟩

/-- C9 (amended): an unforced run whose schedule already completed today
returns an unsuccessful result with the state untouched (no step
executed, nothing appended); a successful run leaves the
`job_executions` table showing the schedule completed today; hence when
the first of two unforced runs with the same run key completes
successfully, the second is a no-op and appends nothing.  (Without that
proviso the claim fails: a run that inserts and then fails leaves the
job uncompleted, and a later unforced run may insert again.) -/
theorem runDailyAnalysis_idempotent (c c2 : Collab) (now now2 : Int)
    (today : Str) (sched : Schedule) (force : Bool) (st : PipeState) :
    (hasJobRunToday sched today st.db = true →
      runDailyAnalysis c2 now2 today sched false st =
        (st, ⟨false, 0, 0, 0, 0, 0, [alreadyMsg sched]⟩)) ∧
    ((runDailyAnalysis c now today sched force st).2.success = true →
      hasJobRunToday sched today
        (runDailyAnalysis c now today sched force st).1.db = true) ∧
    ((runDailyAnalysis c now today sched force st).2.success = true →
      runDailyAnalysis c2 now2 today sched false
          (runDailyAnalysis c now today sched force st).1 =
        ((runDailyAnalysis c now today sched force st).1,
         ⟨false, 0, 0, 0, 0, 0, [alreadyMsg sched]⟩)) := by
  have hmarked : (runDailyAnalysis c now today sched force st).2.success = true →
      hasJobRunToday sched today
        (runDailyAnalysis c now today sched force st).1.db = true := by
    intro hs
    by_cases hg : (!force && hasJobRunToday sched today st.db) = true
    · rw [runDailyAnalysis, if_pos hg] at hs
      simp at hs
    · have hg' : (!force && hasJobRunToday sched today st.db) = false :=
        Bool.eq_false_iff.mpr hg
      cases hp : pipelineBody c now today sched
          {st with db := (startJobExecution sched today st.db).2, errs := []} with
      | mk st2 res =>
        cases res with
        | ok r =>
          rw [runDailyAnalysis_ok_eq c now today sched force st st2 r hg' hp]
          show hasJobRunToday sched today
            (completeJobExecution (startJobExecution sched today st.db).1 st2.db) = true
          obtain ⟨hdb, -⟩ := tame_pipelineBody c now today sched
            {st with db := (startJobExecution sched today st.db).2, errs := []}
          rw [hp] at hdb
          have hdb2 : st2.db =
              st.db ++ [⟨st.db.length + 1, sched, today, .running⟩] := hdb
          rw [hdb2]
          refine List.any_eq_true.mpr
            ⟨⟨st.db.length + 1, sched, today, .completed⟩, ?_, ?_⟩
          · rw [completeJobExecution, List.map_append]
            refine List.mem_append_right _ ?_
            simp [startJobExecution]
          · simp
        | error m =>
          rw [runDailyAnalysis_error_eq c now today sched force st st2 m hg' hp] at hs
          simp at hs
  refine ⟨fun h => guard_noop_of_hasJobRunToday c2 now2 today sched st h, hmarked, ?_⟩
  intro hs
  exact guard_noop_of_hasJobRunToday c2 now2 today sched _ (hmarked hs)

/-- Closed instance of the amended idempotency property: with a completed
job row an unforced run is a no-op, a successful run marks the run key
completed, and an unforced rerun after a successful run changes nothing. -/
theorem runDailyAnalysis_idempotent_witness :
    runDailyAnalysis collabOkW 0 todayW Schedule.morning false stDoneW =
      (stDoneW, ⟨false, 0, 0, 0, 0, 0, [alreadyMsg Schedule.morning]⟩) ∧
    hasJobRunToday Schedule.morning todayW
      (runDailyAnalysis collabOkW 0 todayW Schedule.morning false stW).1.db = true ∧
    runDailyAnalysis collabOkW 0 todayW Schedule.morning false
        (runDailyAnalysis collabOkW 0 todayW Schedule.morning false stW).1 =
      ((runDailyAnalysis collabOkW 0 todayW Schedule.morning false stW).1,
       ⟨false, 0, 0, 0, 0, 0, [alreadyMsg Schedule.morning]⟩) :=
  ⟨(runDailyAnalysis_idempotent collabOkW collabOkW 0 0 todayW Schedule.morning
      false stDoneW).1 rfl,
   (runDailyAnalysis_idempotent collabOkW collabOkW 0 0 todayW Schedule.morning
      false stW).2.1 rfl,
   (runDailyAnalysis_idempotent collabOkW collabOkW 0 0 todayW Schedule.morning
      false stW).2.2 rfl⟩

end Sentimeter
